import Mathlib

/-!
Verification of the fast dual-contouring core (`fast_dc.cpp`) against its
natural-language specification.

The C++ source is shallowly embedded: 32-bit unsigned integers are modelled
as `Nat` (with explicit `% 2^32` where the source can wrap), `float`
arithmetic that the claims depend on only through exact field operations and
sign tests is modelled over `ℚ`, and the two external collaborators — the
scalar density field and the QEF solver — together with `glm::normalize`
(whose square root leaves `ℚ`) are abstract parameters gathered in an
environment structure.  The `std::unordered_set` / `std::unordered_map`
containers are modelled as duplicate-free association lists; their iteration
order, unspecified in C++, is the model's insertion order.
-/

namespace FastDC

/-- 4-component vector over `ℚ`, modelling `glm::vec4`. -/
structure Vec4 where
  x : ℚ
  y : ℚ
  z : ℚ
  w : ℚ
deriving DecidableEq, Repr

def Vec4.add (a b : Vec4) : Vec4 := ⟨a.x + b.x, a.y + b.y, a.z + b.z, a.w + b.w⟩

def Vec4.sub (a b : Vec4) : Vec4 := ⟨a.x - b.x, a.y - b.y, a.z - b.z, a.w - b.w⟩

def Vec4.scale (c : ℚ) (a : Vec4) : Vec4 := ⟨c * a.x, c * a.y, c * a.z, c * a.w⟩

def Vec4.zero : Vec4 := ⟨0, 0, 0, 0⟩

/-- `glm::mix(a, b, t) = a + t * (b - a)`, componentwise on `vec4`. -/
def mixQ (a b t : ℚ) : ℚ := a + t * (b - a)

def Vec4.mix (a b : Vec4) (t : ℚ) : Vec4 :=
  ⟨mixQ a.x b.x t, mixQ a.y b.y t, mixQ a.z b.z t, mixQ a.w b.w t⟩

/-- `vec4(glm::mix(vec3(a), vec3(b), t), 1.f)`: mix the xyz components, set w to 1. -/
def Vec4.mix3 (a b : Vec4) (t : ℚ) : Vec4 :=
  ⟨mixQ a.x b.x t, mixQ a.y b.y t, mixQ a.z b.z t, 1⟩

/-- External collaborators of the core, abstracted at their interfaces:
the density field `Density_Func` (read on the xyz components, as the source's
`Density` truncates the `vec4` to `vec3`), the QEF solver
`qef_solve_from_points_4d` (positions, normals, implicit count = list length),
and `glm::normalize` (its square root is irrational, hence abstract). -/
structure Env where
  Density_Func : ℚ → ℚ → ℚ → ℚ
  qef_solve : List Vec4 → List Vec4 → Vec4
  normalize : Vec4 → Vec4

/-- `float Density(const vec4& p) { return Density_Func(vec3(p)); }` -/
def Density (env : Env) (p : Vec4) : ℚ := env.Density_Func p.x p.y p.z

/-- `AXIS_OFFSET[axis]`: unit offset along the given axis (w = 0). -/
def AXIS_OFFSET (axis : Nat) : Vec4 :=
  if axis = 0 then ⟨1, 0, 0, 0⟩
  else if axis = 1 then ⟨0, 1, 0, 0⟩
  else ⟨0, 0, 1, 0⟩

/-- `EDGE_NODE_OFFSETS[axis][i]` from the source, as integer triples
(the ivec4 w component is always 0 and unused). -/
def EDGE_NODE_OFFSETS (axis i : Nat) : Int × Int × Int :=
  if axis = 0 then
    if i = 0 then (0, 0, 0) else if i = 1 then (0, 0, 1)
    else if i = 2 then (0, 1, 0) else (0, 1, 1)
  else if axis = 1 then
    if i = 0 then (0, 0, 0) else if i = 1 then (1, 0, 0)
    else if i = 2 then (0, 0, 1) else (1, 0, 1)
  else
    if i = 0 then (0, 0, 0) else if i = 1 then (0, 1, 0)
    else if i = 2 then (1, 0, 0) else (1, 1, 0)

/-- The literal `ENCODED_EDGE_NODE_OFFSETS` table from the source. -/
def ENCODED_EDGE_NODE_OFFSETS : List Nat :=
  [0x00000000, 0x00100000, 0x00000400, 0x00100400,
   0x00000000, 0x00000001, 0x00100000, 0x00100001,
   0x00000000, 0x00000400, 0x00000001, 0x00000401]

/-- The literal `ENCODED_EDGE_OFFSETS` table from the source. -/
def ENCODED_EDGE_OFFSETS : List Nat :=
  [0x00000000, 0x00100000, 0x00000400, 0x00100400,
   0x40000000, 0x40100000, 0x40000001, 0x40100001,
   0x80000000, 0x80000400, 0x80000001, 0x80000401]

/-- `EncodeVoxelUniqueID`: `idxPos.x | (idxPos.y << 10) | (idxPos.z << 20)`.
The source computes on nonnegative in-range ints, on which int bitwise
operations agree with the `Nat` operations used here. -/
def EncodeVoxelUniqueID (x y z : Nat) : Nat :=
  x ||| (y <<< 10) ||| (z <<< 20)

/-- `DecodeVoxelUniqueID`: masks and shifts out the three 10-bit fields. -/
def DecodeVoxelUniqueID (id : Nat) : Nat × Nat × Nat :=
  (id &&& 0x3ff, (id >>> 10) &&& 0x3ff, (id >>> 20) &&& 0x3ff)

/-- `EncodeAxisUniqueID`: `(x << 0) | (y << 10) | (z << 20) | (axis << 30)`. -/
def EncodeAxisUniqueID (axis x y z : Nat) : Nat :=
  (x <<< 0) ||| (y <<< 10) ||| (z <<< 20) ||| (axis <<< 30)

/-- 32-bit wrapping subtraction `a - b` (`uint32_t` arithmetic), for `b < 2^32`. -/
def sub32 (a b : Nat) : Nat := (a + (2 ^ 32 - b % 2 ^ 32)) % 2 ^ 32

/-- Crossing data recorded per surface-crossing edge (`struct EdgeInfo`). -/
structure EdgeInfo where
  pos : Vec4
  normal : Vec4
  winding : Bool
deriving DecidableEq, Repr

/-- `std::unordered_set<uint32_t>::insert`: idempotent insertion.  The model
keeps first-insertion order as the (unspecified in C++) iteration order. -/
def setInsert (s : List Nat) (v : Nat) : List Nat :=
  if v ∈ s then s else s ++ [v]

/-- `std::unordered_map` `operator[]=`: overwrite if the key is present,
otherwise add the binding. -/
def updateAssoc (m : List (Nat × EdgeInfo)) (k : Nat) (v : EdgeInfo) :
    List (Nat × EdgeInfo) :=
  if (m.lookup k).isSome then
    m.map (fun pr => if pr.1 = k then (k, v) else pr)
  else m ++ [(k, v)]

/-- 32-bit wrapping addition (`uint32_t` arithmetic). -/
def add32 (a b : Nat) : Nat := (a + b) % 2 ^ 32

/-- Loop body of `FindIntersection`: the state carries
`(t, minValue, currentT)`; the `FLT_MAX` initial `minValue` is modelled as
`none` (no minimum recorded yet), so the first step always records. -/
def fiStep (env : Env) (p0 p1 : Vec4) (s : ℚ × Option ℚ × ℚ) (_i : Nat) :
    ℚ × Option ℚ × ℚ :=
  let FIND_EDGE_INFO_INCREMENT : ℚ := 1 / 16
  let t := s.1
  let minValue := s.2.1
  let currentT := s.2.2
  let p := Vec4.mix p0 p1 currentT
  let d := |Density env p|
  let s1 : ℚ × Option ℚ :=
    match minValue with
    | none => (currentT, some d)
    | some m => if d < m then (currentT, some d) else (t, minValue)
  (s1.1, s1.2, currentT + FIND_EDGE_INFO_INCREMENT)

/-- `FindIntersection(p0, p1)`: 16-step uniform linear search along the
segment, keeping the step of minimum `|Density|`. -/
def FindIntersection (env : Env) (p0 p1 : Vec4) : ℚ :=
  ((List.range 16).foldl (fiStep env p0 p1) (0, none, 0)).1

/-- The world-space position probed for grid coordinate `(x, y, z)`:
`vec4(x - gridOffset + worldX, ..., 1.f)` with `gridOffset = voxelGridSize / 2.0f`. -/
def cornerPos (wx wy wz : Int) (g : Nat) (x y z : Nat) : Vec4 :=
  ⟨(x : ℚ) - (g : ℚ) / 2 + (wx : ℚ),
   (y : ℚ) - (g : ℚ) / 2 + (wy : ℚ),
   (z : ℚ) - (g : ℚ) / 2 + (wz : ℚ), 1⟩

/-- `estimateNormal` at `pos` (the body of the `normal` computation in
`FindActiveVoxels`): central differences with `H = 0.001`, then
`glm::normalize` (abstract). -/
def estimateNormal (env : Env) (pos : Vec4) : Vec4 :=
  let H : ℚ := 1 / 1000
  env.normalize
    ⟨Density env (pos.add ⟨H, 0, 0, 0⟩) - Density env (pos.sub ⟨H, 0, 0, 0⟩),
     Density env (pos.add ⟨0, H, 0, 0⟩) - Density env (pos.sub ⟨0, H, 0, 0⟩),
     Density env (pos.add ⟨0, 0, H, 0⟩) - Density env (pos.sub ⟨0, 0, H, 0⟩),
     0⟩

/-- Scanner state: active voxel set and edge-info map. -/
abbrev ScanState := List Nat × List (Nat × EdgeInfo)

/-- One iteration of the innermost loop body of `FindActiveVoxels`, for grid
coordinate `(x, y, z)` and one axis. -/
def scanStep (env : Env) (wx wy wz : Int) (g : Nat) (st : ScanState)
    (c : Nat × Nat × Nat × Nat) : ScanState :=
  let x := c.1
  let y := c.2.1
  let z := c.2.2.1
  let axis := c.2.2.2
  let p := cornerPos wx wy wz g x y z
  let q := p.add (AXIS_OFFSET axis)
  let pDensity := Density env p
  let qDensity := Density env q
  let zeroCrossing :=
    (0 ≤ pDensity ∧ qDensity < 0) ∨ (pDensity < 0 ∧ 0 ≤ qDensity)
  if zeroCrossing then
    let t := FindIntersection env p q
    let pos := Vec4.mix3 p q t
    let normal := estimateNormal env pos
    let info : EdgeInfo := ⟨pos, normal, decide (0 ≤ pDensity)⟩
    let code := EncodeAxisUniqueID axis x y z
    let edges1 := updateAssoc st.2 code info
    let voxels1 := (List.range 4).foldl
      (fun vs i =>
        let off := EDGE_NODE_OFFSETS axis i
        let nx : Int := (x : Int) - off.1
        let ny : Int := (y : Int) - off.2.1
        let nz : Int := (z : Int) - off.2.2
        if nx < 0 ∨ ny < 0 ∨ nz < 0 then vs
        else setInsert vs (EncodeVoxelUniqueID nx.toNat ny.toNat nz.toNat))
      st.1
    (voxels1, edges1)
  else st

/-- The loop nest of `FindActiveVoxels`: all `(x, y, z, axis)` iterations in
source order (`x` outermost, then `y`, `z`, `axis`). -/
def allSteps (g : Nat) : List (Nat × Nat × Nat × Nat) :=
  (List.range g).flatMap fun x =>
    (List.range g).flatMap fun y =>
      (List.range g).flatMap fun z =>
        (List.range 3).map fun axis => (x, y, z, axis)

/-- `FindActiveVoxels`: scan every edge of the region, accumulating the
active voxel set and the edge-info map. -/
def FindActiveVoxels (env : Env) (wx wy wz : Int) (g : Nat) : ScanState :=
  (allSteps g).foldl (scanStep env wx wy wz g) ([], [])

/-- The 12 candidate edge keys of a voxel (`voxelID + ENCODED_EDGE_OFFSETS[i]`,
`uint32_t` addition), with the recorded `EdgeInfo` of the found ones collected
in loop order — the `p[]`/`n[]` arrays of `GenerateVertexData`. -/
def gatherEdgeInfos (edges : List (Nat × EdgeInfo)) (voxelID : Nat) :
    List EdgeInfo :=
  (List.range 12).filterMap fun i =>
    edges.lookup (add32 voxelID (ENCODED_EDGE_OFFSETS.getD i 0))

/-- One output vertex as computed in `GenerateVertexData` for a voxel:
position from the external QEF solver over the gathered samples, normal the
sum of the gathered normals scaled by `1/idx` when `idx ≠ 0`.
(`vec4 nodeNormal;` is taken as zero-initialized.) -/
def vertexFor (env : Env) (edges : List (Nat × EdgeInfo)) (voxelID : Nat) :
    Vec4 × Vec4 :=
  let infos := gatherEdgeInfos edges voxelID
  let idx := infos.length
  let nodePos := env.qef_solve (infos.map (·.pos)) (infos.map (·.normal))
  let nodeNormal := (infos.map (·.normal)).foldl Vec4.add Vec4.zero
  let nodeNormal := if idx ≠ 0 then Vec4.scale (1 / (idx : ℚ)) nodeNormal
                    else nodeNormal
  (nodePos, nodeNormal)

/-- Vertex-placement state: `(vertexIndices, vertices, qefCalls)` —
the voxel-to-index map, the vertex buffer written so far (so
`idxCounter = numVertices = vertices.length`), and the sample count `idx`
passed to each `qef_solve_from_points_4d` invocation, in call order. -/
abbrev VertexState := List (Nat × Nat) × List (Vec4 × Vec4) × List Nat

/-- One iteration of the per-voxel loop of `GenerateVertexData`: the QEF
solver is invoked unconditionally; the vertex and its index are emitted only
when more than one edge was found (`if (idx > 1)`). -/
def vertexStep (env : Env) (edges : List (Nat × EdgeInfo)) (st : VertexState)
    (voxelID : Nat) : VertexState :=
  let idx := (gatherEdgeInfos edges voxelID).length
  let calls1 := st.2.2 ++ [idx]
  if 1 < idx then
    (st.1 ++ [(voxelID, st.2.1.length)],
     st.2.1 ++ [vertexFor env edges voxelID],
     calls1)
  else (st.1, st.2.1, calls1)

/-- `GenerateVertexData` over the active voxel set (in iteration order). -/
def GenerateVertexData (env : Env) (voxels : List Nat)
    (edges : List (Nat × EdgeInfo)) : VertexState :=
  voxels.foldl (vertexStep env edges) ([], [], [])

/-- An output triangle: three vertex indices. -/
structure MeshTriangle where
  i0 : Nat
  i1 : Nat
  i2 : Nat
deriving DecidableEq, Repr

/-- The 4 candidate voxel IDs sharing an edge (`voxelIDs[4]` in
`GenerateTriangles`): `axis = (edge >> 30) & 0xff`,
`nodeID = edge & ~0xc0000000`, then `uint32_t` subtraction of the four
`ENCODED_EDGE_NODE_OFFSETS` entries of that axis. -/
def edgeVoxelIDs (edge : Nat) : List Nat :=
  let axis := (edge >>> 30) &&& 0xff
  let nodeID := edge &&& 0x3fffffff
  [sub32 nodeID (ENCODED_EDGE_NODE_OFFSETS.getD (axis * 4 + 0) 0),
   sub32 nodeID (ENCODED_EDGE_NODE_OFFSETS.getD (axis * 4 + 1) 0),
   sub32 nodeID (ENCODED_EDGE_NODE_OFFSETS.getD (axis * 4 + 2) 0),
   sub32 nodeID (ENCODED_EDGE_NODE_OFFSETS.getD (axis * 4 + 3) 0)]

/-- The `edgeVoxels[]` array of `GenerateTriangles`: the vertex indices of
the voxels found in `vertexIndices`, collected compactly in candidate order
(`edgeVoxels[numFoundVoxels++] = iter->second`). -/
def foundVoxels (vertexIndices : List (Nat × Nat)) (edge : Nat) : List Nat :=
  (edgeVoxelIDs edge).filterMap fun id => vertexIndices.lookup id

/-- The triangles one edge contributes in `GenerateTriangles`: fewer than 4
found voxels means no quad, otherwise two triangles whose winding is
selected by the edge's winding flag. -/
def trisForEdge (vertexIndices : List (Nat × Nat)) (edge : Nat)
    (info : EdgeInfo) : List MeshTriangle :=
  match foundVoxels vertexIndices edge with
  | [v0, v1, v2, v3] =>
    if info.winding then [⟨v0, v1, v3⟩, ⟨v0, v3, v2⟩]
    else [⟨v0, v3, v1⟩, ⟨v0, v2, v3⟩]
  | _ => []

/-- `GenerateTriangles`: every recorded edge contributes its triangles in
edge-map iteration order. -/
def GenerateTriangles (vertexIndices : List (Nat × Nat))
    (edges : List (Nat × EdgeInfo)) : List MeshTriangle :=
  edges.flatMap fun pr => trisForEdge vertexIndices pr.1 pr.2

/-- The output mesh buffer: vertices are `(position, normal)` pairs. -/
structure MeshBuffer where
  vertices : List (Vec4 × Vec4)
  triangles : List MeshTriangle
deriving DecidableEq, Repr

/-- `GenerateMesh`: scanner, then vertex placement, then triangulation. -/
def GenerateMesh (env : Env) (x y z : Int) (cellSize : Nat) : MeshBuffer :=
  let scanned := FindActiveVoxels env x y z cellSize
  let vdata := GenerateVertexData env scanned.1 scanned.2
  let tris := GenerateTriangles vdata.1 scanned.2
  ⟨vdata.2.1, tris⟩

/-- A concrete environment for evaluating the model: the density field is
the plane `x = 0` (negative halfspace inside), the QEF solver and the
normalizer are trivial placeholders (the claims do not constrain them). -/
def planeEnv : Env :=
  { Density_Func := fun x _ _ => x,
    qef_solve := fun _ _ => Vec4.zero,
    normalize := fun v => v }

/-- A sample crossing record used in concrete checks. -/
def sampleInfo : EdgeInfo := ⟨Vec4.zero, Vec4.zero, true⟩

/-- Modelled from the spec's words for the refinement comparison: the i-th
canonical edge-base offset of axis `a` — the unit offsets on the two axes
other than `a`, in the source's canonical per-axis order. -/
def EDGE_BASE_OFFSETS (axis i : Nat) : Nat × Nat × Nat :=
  if axis = 0 then
    if i = 0 then (0, 0, 0) else if i = 1 then (0, 0, 1)
    else if i = 2 then (0, 1, 0) else (0, 1, 1)
  else if axis = 1 then
    if i = 0 then (0, 0, 0) else if i = 1 then (0, 0, 1)
    else if i = 2 then (1, 0, 0) else (1, 0, 1)
  else
    if i = 0 then (0, 0, 0) else if i = 1 then (0, 1, 0)
    else if i = 2 then (1, 0, 0) else (1, 1, 0)

/-- The absolute density sampled at the k-th step of the linear search. -/
def stepAbsDensity (env : Env) (p0 p1 : Vec4) (k : Nat) : ℚ :=
  |Density env (Vec4.mix p0 p1 ((k : ℚ) / 16))|

/-- A voxel ID of the active set: the encoding of coordinates inside the
grid region. -/
def VoxelInRange (g : Nat) (id : Nat) : Prop :=
  ∃ a b c : Nat, a < g ∧ b < g ∧ c < g ∧ id = EncodeVoxelUniqueID a b c

/-- The invariant maintained by the per-voxel loop of `GenerateVertexData`:
indices are assigned sequentially in emission order, slot `i` of the vertex
buffer holds the vertex of the voxel assigned index `i`, and every indexed
voxel had at least 2 found edges. -/
def GVDInv (env : Env) (edges : List (Nat × EdgeInfo)) (st : VertexState) :
    Prop :=
  st.1.map Prod.snd = List.range st.2.1.length ∧
  (∀ pr ∈ st.1, st.2.1[pr.2]? = some (vertexFor env edges pr.1)) ∧
  (∀ pr ∈ st.1, 2 ≤ (gatherEdgeInfos edges pr.1).length)

/-- The form of every entry of the recorded edge map: its key encodes the
axis and base coordinate of a probed in-range edge, and its winding flag is
set iff the density at the edge's lower endpoint (the base corner) is
nonnegative. -/
def EdgeRecorded (env : Env) (wx wy wz : Int) (g : Nat)
    (pr : Nat × EdgeInfo) : Prop :=
  ∃ x y z axis : Nat, axis < 3 ∧ x < g ∧ y < g ∧ z < g ∧
    pr.1 = EncodeAxisUniqueID axis x y z ∧
    pr.2.winding = decide (0 ≤ Density env (cornerPos wx wy wz g x y z))

/-- A two-entry edge map whose keys are exactly two of the 12 candidate edge
keys of voxel 5 (`add32 5 0x0` and `add32 5 0x40000000`), so voxel 5 gathers
exactly 2 crossings. -/
def sampleEdges : List (Nat × EdgeInfo) :=
  [(5, sampleInfo), (1073741829, sampleInfo)]

/-- Bit-packing arithmetic: or-ing a value below `2^n` with a value shifted
left by `n` is plain addition. -/
theorem lor_shiftLeft_eq_add {a : Nat} (b n : Nat) (h : a < 2 ^ n) :
    a ||| b <<< n = a + b * 2 ^ n := by
  induction n generalizing a b with
  | zero =>
    interval_cases a
    simp [Nat.shiftLeft_eq]
  | succ n ih =>
    have hc : b <<< (n + 1) = 2 * (b <<< n) := by
      rw [Nat.shiftLeft_eq, Nat.shiftLeft_eq, Nat.pow_succ]
      ring
    have hdiv : (a ||| b <<< (n + 1)) / 2 = a / 2 ||| b <<< n := by
      rw [hc, Nat.or_div_two, Nat.mul_div_cancel_left _ (by norm_num)]
    have hmod : (a ||| b <<< (n + 1)) % 2 = a % 2 := by
      rcases Nat.mod_two_eq_zero_or_one a with ha | ha
      · rcases Nat.mod_two_eq_zero_or_one (a ||| b <<< (n + 1)) with h2 | h2
        · omega
        · have := (Nat.or_mod_two_eq_one).mp h2
          rw [hc] at this
          omega
      · have : (a ||| b <<< (n + 1)) % 2 = 1 := (Nat.or_mod_two_eq_one).mpr (Or.inl ha)
        omega
    have ha2 : a / 2 < 2 ^ n := by
      have := Nat.pow_succ 2 n
      omega
    have hih := ih (a := a / 2) b ha2
    have hsplit : a ||| b <<< (n + 1) = 2 * ((a ||| b <<< (n + 1)) / 2) +
        (a ||| b <<< (n + 1)) % 2 := by omega
    rw [hsplit, hdiv, hmod, hih]
    have hp : b * 2 ^ (n + 1) = 2 * (b * 2 ^ n) := by ring
    rw [hp]
    omega

theorem encode_eq_linear {x y z : Nat} (hx : x < 1024) (hy : y < 1024) :
    EncodeVoxelUniqueID x y z = x + y * 1024 + z * 1048576 := by
  unfold EncodeVoxelUniqueID
  have h1 : x ||| y <<< 10 = x + y * 2 ^ 10 :=
    lor_shiftLeft_eq_add y 10 (by omega)
  have h2 : x + y * 2 ^ 10 < 2 ^ 20 := by norm_num; omega
  rw [h1, lor_shiftLeft_eq_add z 20 h2]
  norm_num

theorem and_1023_eq_mod (m : Nat) : m &&& 1023 = m % 1024 := by
  have h := Nat.and_pow_two_sub_one_eq_mod m 10
  norm_num at h
  exact h

theorem decode_linear (m : Nat) :
    DecodeVoxelUniqueID m = (m % 1024, m / 1024 % 1024, m / 1048576 % 1024) := by
  unfold DecodeVoxelUniqueID
  simp [and_1023_eq_mod, Nat.shiftRight_eq_div_pow]

/- ### Claim C5: voxel ID encode/decode round-trip -/

theorem encode_decode_roundtrip {x y z : Nat}
    (hx : x < 1024) (hy : y < 1024) (hz : z < 1024) :
    DecodeVoxelUniqueID (EncodeVoxelUniqueID x y z) = (x, y, z) := by
  rw [encode_eq_linear hx hy, decode_linear]
  have e1 : (x + y * 1024 + z * 1048576) % 1024 = x := by omega
  have e2 : (x + y * 1024 + z * 1048576) / 1024 % 1024 = y := by omega
  have e3 : (x + y * 1024 + z * 1048576) / 1048576 % 1024 = z := by omega
  rw [e1, e2, e3]

/-- Claim C5: for all coordinates in `[0, 1024)`, decoding an encoded voxel
ID returns exactly the coordinates; encoding is injective on this domain
and decoding is its exact inverse. -/
theorem C5_encode_decode_exact (x y z : Nat)
    (hx : x < 1024) (hy : y < 1024) (hz : z < 1024) :
    DecodeVoxelUniqueID (EncodeVoxelUniqueID x y z) = (x, y, z) ∧
    ∀ a b c : Nat, a < 1024 → b < 1024 → c < 1024 →
      EncodeVoxelUniqueID x y z = EncodeVoxelUniqueID a b c →
      x = a ∧ y = b ∧ z = c := by
  refine ⟨encode_decode_roundtrip hx hy hz, ?_⟩
  intro a b c ha hb hc heq
  have h1 := encode_decode_roundtrip hx hy hz
  have h2 := encode_decode_roundtrip ha hb hc
  rw [heq, h2] at h1
  exact ⟨(Prod.mk.injEq _ _ _ _ ▸ h1).1.symm, by simp at h1; omega, by simp at h1; omega⟩

theorem C5_witness :
    DecodeVoxelUniqueID (EncodeVoxelUniqueID 5 6 7) = (5, 6, 7) :=
  (C5_encode_decode_exact 5 6 7 (by decide) (by decide) (by decide)).1

/- ### Claim C7: the packed lookup tables equal the packed expansion of the
3D offsets -/

/-- Claim C7: for every axis `a < 3` and `i < 4`, entry `4*a+i` of
`ENCODED_EDGE_NODE_OFFSETS` is the encoded `EDGE_NODE_OFFSETS[a][i]`, and
entry `4*a+i` of `ENCODED_EDGE_OFFSETS` is `EncodeAxisUniqueID` of axis `a`
at the i-th canonical edge-base offset, so the table lookups coincide with
computing the offsets from 3D coordinates. -/
theorem C7_encoded_tables (a i : Nat) (ha : a < 3) (hi : i < 4) :
    ENCODED_EDGE_NODE_OFFSETS.getD (4 * a + i) 0 =
      EncodeVoxelUniqueID (EDGE_NODE_OFFSETS a i).1.toNat
        (EDGE_NODE_OFFSETS a i).2.1.toNat (EDGE_NODE_OFFSETS a i).2.2.toNat ∧
    ENCODED_EDGE_OFFSETS.getD (4 * a + i) 0 =
      EncodeAxisUniqueID a (EDGE_BASE_OFFSETS a i).1
        (EDGE_BASE_OFFSETS a i).2.1 (EDGE_BASE_OFFSETS a i).2.2 := by
  interval_cases a <;> interval_cases i <;> exact ⟨rfl, rfl⟩

theorem C7_witness :
    ENCODED_EDGE_OFFSETS.getD 6 0 =
      EncodeAxisUniqueID 1 (EDGE_BASE_OFFSETS 1 2).1
        (EDGE_BASE_OFFSETS 1 2).2.1 (EDGE_BASE_OFFSETS 1 2).2.2 :=
  (C7_encoded_tables 1 2 (by decide) (by decide)).2

/- ### Claim C8: FindIntersection is the earliest argmin of the 16-step
uniform search -/

theorem fi_loop_inv (env : Env) (p0 p1 : Vec4) (n : Nat) :
    ((List.range n).foldl (fiStep env p0 p1) (0, none, 0)).2.2 = (n : ℚ) / 16 ∧
    (0 < n → ∃ i, i < n ∧
      ((List.range n).foldl (fiStep env p0 p1) (0, none, 0)).1 = (i : ℚ) / 16 ∧
      ((List.range n).foldl (fiStep env p0 p1) (0, none, 0)).2.1 =
        some (stepAbsDensity env p0 p1 i) ∧
      (∀ j, j < n → stepAbsDensity env p0 p1 i ≤ stepAbsDensity env p0 p1 j) ∧
      (∀ j, j < i → stepAbsDensity env p0 p1 i < stepAbsDensity env p0 p1 j)) := by
  induction n with
  | zero => simp
  | succ n ih =>
    obtain ⟨hct, hmain⟩ := ih
    rw [List.range_succ, List.foldl_append]
    rcases n.eq_zero_or_pos with hn | hn
    · subst hn
      simp only [List.range_zero, List.foldl_nil, List.foldl_cons]
      constructor
      · simp only [fiStep]
        norm_num
      · intro _
        refine ⟨0, Nat.zero_lt_one, ?_, ?_, ?_, ?_⟩
        · simp only [fiStep]
          norm_num
        · simp only [fiStep, stepAbsDensity]
          norm_num
        · intro j hj
          interval_cases j
          exact le_refl _
        · intro j hj
          omega
    · obtain ⟨i, hi, ht, hmv, hmin, hearliest⟩ := hmain hn
      rcases hs : (List.range n).foldl (fiStep env p0 p1) (0, none, 0) with ⟨t, mv, ct⟩
      rw [hs] at hct ht hmv
      simp only at hct ht hmv
      subst hct ht hmv
      simp only [List.foldl_cons, List.foldl_nil]
      have hdn : |Density env (Vec4.mix p0 p1 ((n : ℚ) / 16))| =
          stepAbsDensity env p0 p1 n := rfl
      by_cases hd : stepAbsDensity env p0 p1 n < stepAbsDensity env p0 p1 i
      · constructor
        · simp only [fiStep]
          push_cast
          ring
        · intro _
          refine ⟨n, by omega, ?_, ?_, ?_, ?_⟩
          · simp only [fiStep]
            rw [hdn, if_pos hd]
          · simp only [fiStep]
            rw [hdn, if_pos hd]
          · intro j hj
            rcases Nat.lt_succ_iff_lt_or_eq.mp hj with hj1 | hj1
            · exact le_of_lt (lt_of_lt_of_le hd (hmin j hj1))
            · subst hj1
              exact le_refl _
          · intro j hj
            exact lt_of_lt_of_le hd (hmin j hj)
      · constructor
        · simp only [fiStep]
          push_cast
          ring
        · intro _
          refine ⟨i, by omega, ?_, ?_, ?_, ?_⟩
          · simp only [fiStep]
            rw [hdn, if_neg hd]
          · simp only [fiStep]
            rw [hdn, if_neg hd]
          · intro j hj
            rcases Nat.lt_succ_iff_lt_or_eq.mp hj with hj1 | hj1
            · exact hmin j hj1
            · subst hj1
              exact le_of_not_lt hd
          · exact hearliest

/-- Claim C8: `FindIntersection` returns `t ∈ [0, 1]` equal to `i/16` for
the step `i` of minimum absolute density among the 16 uniform steps of the
linear search (the earliest such step on ties), with no further
interpolation of the returned parameter. -/
theorem C8_find_intersection_argmin (env : Env) (p0 p1 : Vec4) :
    0 ≤ FindIntersection env p0 p1 ∧ FindIntersection env p0 p1 ≤ 1 ∧
    ∃ i : ℕ, i < 16 ∧ FindIntersection env p0 p1 = (i : ℚ) / 16 ∧
      (∀ j, j < 16 → stepAbsDensity env p0 p1 i ≤ stepAbsDensity env p0 p1 j) ∧
      (∀ j, j < i → stepAbsDensity env p0 p1 i < stepAbsDensity env p0 p1 j) := by
  obtain ⟨-, h⟩ := fi_loop_inv env p0 p1 16
  obtain ⟨i, hi, ht, -, hmin, hearliest⟩ := h (by norm_num)
  have hle : (i : ℚ) ≤ 15 := by exact_mod_cast Nat.lt_succ_iff.mp hi
  have hnn : (0 : ℚ) ≤ (i : ℚ) := Nat.cast_nonneg i
  have hF : FindIntersection env p0 p1 = (i : ℚ) / 16 := ht
  refine ⟨?_, ?_, i, hi, hF, hmin, hearliest⟩
  · rw [hF]; positivity
  · rw [hF]; linarith

theorem C8_witness :
    0 ≤ FindIntersection planeEnv ⟨-1, 0, 0, 1⟩ ⟨1, 0, 0, 1⟩ ∧
    FindIntersection planeEnv ⟨-1, 0, 0, 1⟩ ⟨1, 0, 0, 1⟩ ≤ 1 :=
  ⟨(C8_find_intersection_argmin planeEnv ⟨-1, 0, 0, 1⟩ ⟨1, 0, 0, 1⟩).1,
   (C8_find_intersection_argmin planeEnv ⟨-1, 0, 0, 1⟩ ⟨1, 0, 0, 1⟩).2.1⟩

/- ### Generic fold invariance and container membership lemmas -/

theorem foldl_invariant {α σ : Type} {P : σ → Prop} {Q : α → Prop}
    (f : σ → α → σ) (hstep : ∀ s a, P s → Q a → P (f s a)) :
    ∀ (l : List α) (s : σ), P s → (∀ a ∈ l, Q a) → P (l.foldl f s) := by
  intro l
  induction l with
  | nil => intro s hs _; exact hs
  | cons a l ih =>
    intro s hs hq
    exact ih (f s a) (hstep s a hs (hq a (List.mem_cons_self a l)))
      fun b hb => hq b (List.mem_cons_of_mem a hb)

theorem mem_setInsert {s : List Nat} {v id : Nat} (h : id ∈ setInsert s v) :
    id ∈ s ∨ id = v := by
  rw [setInsert] at h
  split_ifs at h
  · exact Or.inl h
  · simpa using h

theorem mem_updateAssoc {m : List (Nat × EdgeInfo)} {k : Nat} {v : EdgeInfo}
    {pr : Nat × EdgeInfo} (h : pr ∈ updateAssoc m k v) :
    pr ∈ m ∨ pr = (k, v) := by
  rw [updateAssoc] at h
  split_ifs at h
  · obtain ⟨q, hq, hqe⟩ := List.mem_map.mp h
    by_cases h2 : q.1 = k
    · rw [if_pos h2] at hqe
      exact Or.inr hqe.symm
    · rw [if_neg h2] at hqe
      exact Or.inl (hqe ▸ hq)
  · rcases List.mem_append.mp h with h1 | h1
    · exact Or.inl h1
    · exact Or.inr (by simpa using h1)

theorem mem_allSteps {g : Nat} {c : Nat × Nat × Nat × Nat}
    (h : c ∈ allSteps g) :
    c.1 < g ∧ c.2.1 < g ∧ c.2.2.1 < g ∧ c.2.2.2 < 3 := by
  rw [allSteps] at h
  simp only [List.mem_flatMap, List.mem_map, List.mem_range] at h
  obtain ⟨x, hx, y, hy, z, hz, axis, haxis, rfl⟩ := h
  exact ⟨hx, hy, hz, haxis⟩

theorem edge_node_offsets_bounds (axis i : Nat) :
    0 ≤ (EDGE_NODE_OFFSETS axis i).1 ∧ (EDGE_NODE_OFFSETS axis i).1 ≤ 1 ∧
    0 ≤ (EDGE_NODE_OFFSETS axis i).2.1 ∧ (EDGE_NODE_OFFSETS axis i).2.1 ≤ 1 ∧
    0 ≤ (EDGE_NODE_OFFSETS axis i).2.2 ∧ (EDGE_NODE_OFFSETS axis i).2.2 ≤ 1 := by
  rw [EDGE_NODE_OFFSETS]
  split_ifs <;> exact ⟨by norm_num, by norm_num, by norm_num, by norm_num,
    by norm_num, by norm_num⟩

/- ### Scanner invariants -/

theorem scan_voxels_inv (env : Env) (wx wy wz : Int) (g : Nat) :
    ∀ id ∈ (FindActiveVoxels env wx wy wz g).1, VoxelInRange g id := by
  refine foldl_invariant
    (P := fun st : ScanState => ∀ id ∈ st.1, VoxelInRange g id)
    (Q := fun c : Nat × Nat × Nat × Nat =>
      c.1 < g ∧ c.2.1 < g ∧ c.2.2.1 < g ∧ c.2.2.2 < 3)
    (scanStep env wx wy wz g) ?_ (allSteps g) ([], []) (by simp)
    fun a ha => mem_allSteps ha
  intro s a hP hQ
  simp only [scanStep]
  split
  · dsimp only
    refine foldl_invariant
      (P := fun vs : List Nat => ∀ id ∈ vs, VoxelInRange g id)
      (Q := fun _ : Nat => True) _ ?_ (List.range 4) s.1 hP fun _ _ => trivial
    intro vs i hvs _
    split
    · exact hvs
    · intro id hid
      rcases mem_setInsert hid with h | h
      · exact hvs id h
      · rename_i hneg
        obtain ⟨hb1, hb2, hb3, hb4, hb5, hb6⟩ :=
          edge_node_offsets_bounds a.2.2.2 i
        exact ⟨((a.1 : Int) - (EDGE_NODE_OFFSETS a.2.2.2 i).1).toNat,
               ((a.2.1 : Int) - (EDGE_NODE_OFFSETS a.2.2.2 i).2.1).toNat,
               ((a.2.2.1 : Int) - (EDGE_NODE_OFFSETS a.2.2.2 i).2.2).toNat,
               by omega, by omega, by omega, h⟩
  · exact hP

theorem decode_components_lt {g id : Nat} (h : VoxelInRange g id) :
    (DecodeVoxelUniqueID id).1 < g ∧ (DecodeVoxelUniqueID id).2.1 < g ∧
    (DecodeVoxelUniqueID id).2.2 < g := by
  obtain ⟨a, b, c, ha, hb, hc, rfl⟩ := h
  by_cases hg : g ≤ 1024
  · rw [encode_eq_linear (by omega) (by omega), decode_linear]
    refine ⟨?_, ?_, ?_⟩ <;> dsimp only <;> omega
  · rw [decode_linear]
    refine ⟨?_, ?_, ?_⟩ <;> dsimp only <;> omega

theorem gvd_keys_subset (env : Env) (voxels : List Nat)
    (edges : List (Nat × EdgeInfo)) :
    ∀ pr ∈ (GenerateVertexData env voxels edges).1, pr.1 ∈ voxels := by
  refine foldl_invariant
    (P := fun st : VertexState => ∀ pr ∈ st.1, pr.1 ∈ voxels)
    (Q := fun v => v ∈ voxels)
    (vertexStep env edges) ?_ voxels ([], [], []) (by simp) fun a ha => ha
  intro s a hP hQ
  simp only [vertexStep]
  split
  · intro pr hpr
    rcases List.mem_append.mp hpr with h | h
    · exact hP pr h
    · simp only [List.mem_singleton] at h
      rw [h]
      exact hQ
  · exact hP

/-- Claim C6: every VoxelID in the active voxel set — and hence every key
that can appear in VertexIndexMap — decodes to grid coordinates with each
component in `[0, gridSize)`; neighbors whose coordinate would go negative
at the lower region boundary are never inserted. -/
theorem C6_active_voxel_ids_in_range (env : Env) (wx wy wz : Int) (g : Nat) :
    (∀ id ∈ (FindActiveVoxels env wx wy wz g).1,
      (DecodeVoxelUniqueID id).1 < g ∧ (DecodeVoxelUniqueID id).2.1 < g ∧
      (DecodeVoxelUniqueID id).2.2 < g) ∧
    (∀ pr ∈ (GenerateVertexData env (FindActiveVoxels env wx wy wz g).1
        (FindActiveVoxels env wx wy wz g).2).1,
      (DecodeVoxelUniqueID pr.1).1 < g ∧ (DecodeVoxelUniqueID pr.1).2.1 < g ∧
      (DecodeVoxelUniqueID pr.1).2.2 < g) := by
  constructor
  · intro id hid
    exact decode_components_lt (scan_voxels_inv env wx wy wz g id hid)
  · intro pr hpr
    exact decode_components_lt (scan_voxels_inv env wx wy wz g pr.1
      (gvd_keys_subset env _ _ pr hpr))

/- ### Vertex placement invariants -/

theorem lookup_some_mem {β : Type} {l : List (Nat × β)} {k : Nat} {v : β}
    (h : l.lookup k = some v) : (k, v) ∈ l := by
  obtain ⟨l₁, l₂, rfl, -⟩ := List.lookup_eq_some_iff.mp h
  simp

theorem lookup_append_single {m : List (Nat × Nat)} {k i : Nat} :
    ((m ++ [(k, i)]).lookup k).isSome = true := by
  rcases h : m.lookup k with - | v <;>
    simp [List.lookup_append, h]

theorem lookup_append_single_ne {β : Type} {m : List (Nat × β)} {k a : Nat}
    {i : β} (h : k ≠ a) : (m ++ [(a, i)]).lookup k = m.lookup k := by
  rw [List.lookup_append]
  have hba : (k == a) = false := beq_eq_false_iff_ne.mpr h
  have h1 : ([(a, i)] : List (Nat × β)).lookup k = none := by
    simp [List.lookup_cons, hba]
  rw [h1]
  cases m.lookup k <;> simp

theorem gvd_inv (env : Env) (voxels : List Nat)
    (edges : List (Nat × EdgeInfo)) :
    GVDInv env edges (GenerateVertexData env voxels edges) := by
  refine foldl_invariant (P := GVDInv env edges) (Q := fun _ => True)
    (vertexStep env edges) ?_ voxels ([], [], [])
    ⟨rfl, by simp, by simp⟩ fun _ _ => trivial
  rintro s a ⟨h1, h2, h3⟩ -
  simp only [vertexStep]
  split
  · rename_i hidx
    refine ⟨?_, ?_, ?_⟩
    · dsimp only
      rw [List.map_append, h1, List.length_append]
      simp [List.range_succ]
    · dsimp only
      intro pr hpr
      rcases List.mem_append.mp hpr with h | h
      · have hmem : pr.2 ∈ s.1.map Prod.snd := List.mem_map_of_mem Prod.snd h
        rw [h1] at hmem
        rw [List.getElem?_append_left (List.mem_range.mp hmem)]
        exact h2 pr h
      · simp only [List.mem_singleton] at h
        subst h
        exact List.getElem?_concat_length _ _
    · dsimp only
      intro pr hpr
      rcases List.mem_append.mp hpr with h | h
      · exact h3 pr h
      · simp only [List.mem_singleton] at h
        subst h
        show 2 ≤ (gatherEdgeInfos edges a).length
        omega
  · exact ⟨h1, h2, h3⟩

theorem gvd_calls (env : Env) (edges : List (Nat × EdgeInfo)) :
    ∀ (voxels : List Nat) (s : VertexState),
    (voxels.foldl (vertexStep env edges) s).2.2 =
      s.2.2 ++ voxels.map (fun v => (gatherEdgeInfos edges v).length) := by
  intro voxels
  induction voxels with
  | nil => intro s; simp
  | cons a l ih =>
    intro s
    rw [List.foldl_cons, ih]
    simp only [vertexStep]
    split <;> simp

theorem gvd_lookup_frozen (env : Env) (edges : List (Nat × EdgeInfo))
    {v : Nat} :
    ∀ (l : List Nat) (s : VertexState), v ∉ l →
    (l.foldl (vertexStep env edges) s).1.lookup v = s.1.lookup v := by
  intro l
  induction l with
  | nil => intro s _; rfl
  | cons a l ih =>
    intro s hv
    rw [List.foldl_cons, ih _ (fun h => hv (List.mem_cons_of_mem a h))]
    have hne : v ≠ a := fun h => hv (h ▸ List.mem_cons_self a l)
    simp only [vertexStep]
    split
    · exact lookup_append_single_ne hne
    · rfl

theorem gvd_lookup_mem (env : Env) (edges : List (Nat × EdgeInfo)) {v : Nat} :
    ∀ (l : List Nat) (s : VertexState), v ∈ l → l.Nodup →
    ((l.foldl (vertexStep env edges) s).1.lookup v).isSome =
      ((s.1.lookup v).isSome ||
        decide (2 ≤ (gatherEdgeInfos edges v).length)) := by
  intro l
  induction l with
  | nil => intro s h; cases h
  | cons a l ih =>
    intro s hv hnd
    rw [List.foldl_cons]
    rcases List.mem_cons.mp hv with rfl | hv1
    · have hnotin : v ∉ l := (List.nodup_cons.mp hnd).1
      rw [gvd_lookup_frozen env edges l _ hnotin]
      simp only [vertexStep]
      split
      · rename_i hidx
        have hd : decide (2 ≤ (gatherEdgeInfos edges v).length) = true :=
          decide_eq_true (by omega)
        rw [hd, Bool.or_true]
        exact lookup_append_single
      · rename_i hidx
        have hd : decide (2 ≤ (gatherEdgeInfos edges v).length) = false :=
          decide_eq_false (by omega)
        rw [hd, Bool.or_false]
    · have hnd1 := (List.nodup_cons.mp hnd).2
      have hne : v ≠ a := by
        intro h
        exact (List.nodup_cons.mp hnd).1 (h ▸ hv1)
      rw [ih _ hv1 hnd1]
      have hstep : (vertexStep env edges s a).1.lookup v = s.1.lookup v := by
        simp only [vertexStep]
        split
        · exact lookup_append_single_ne hne
        · rfl
      rw [hstep]

/-- Claim C3: for every voxel in the active set (a duplicate-free list), an
index is assigned in VertexIndexMap if and only if at least 2 of its 12
canonical edges have recorded crossings, and exactly as many vertices are
appended as indices assigned. -/
theorem C3_vertex_iff_two_edges (env : Env) (voxels : List Nat)
    (edges : List (Nat × EdgeInfo)) (hnd : voxels.Nodup) (v : Nat)
    (hv : v ∈ voxels) :
    (((GenerateVertexData env voxels edges).1.lookup v).isSome ↔
      2 ≤ (gatherEdgeInfos edges v).length) ∧
    (GenerateVertexData env voxels edges).1.length =
      (GenerateVertexData env voxels edges).2.1.length := by
  constructor
  · have h : ((GenerateVertexData env voxels edges).1.lookup v).isSome =
        (((([], [], []) : VertexState).1.lookup v).isSome ||
          decide (2 ≤ (gatherEdgeInfos edges v).length)) :=
      gvd_lookup_mem env edges voxels ([], [], []) hv hnd
    rw [h]
    simp
  · have h1 := (gvd_inv env voxels edges).1
    have hlen := congrArg List.length h1
    simpa using hlen

/-- Claim C10: after `GenerateVertexData`, the assigned indices are exactly
`0, 1, ..., numVertices - 1` in iteration order, the map has as many entries
as there are vertices, and the voxel assigned index `i` is the one whose
vertex occupies slot `i` of the vertex buffer. -/
theorem C10_sequential_indices (env : Env) (voxels : List Nat)
    (edges : List (Nat × EdgeInfo)) :
    (GenerateVertexData env voxels edges).1.map Prod.snd =
      List.range (GenerateVertexData env voxels edges).2.1.length ∧
    (GenerateVertexData env voxels edges).1.length =
      (GenerateVertexData env voxels edges).2.1.length ∧
    ∀ pr ∈ (GenerateVertexData env voxels edges).1,
      (GenerateVertexData env voxels edges).2.1[pr.2]? =
        some (vertexFor env edges pr.1) := by
  obtain ⟨h1, h2, h3⟩ := gvd_inv env voxels edges
  exact ⟨h1, by simpa using congrArg List.length h1, h2⟩

/-- Claim C9: every voxel that receives a vertex has `n ≥ 2` contributing
edge crossings, and the normal stored for it is the sum of the `n`
contributing edge normals scaled by `1/n` — the unweighted arithmetic mean,
with no renormalization. -/
theorem C9_vertex_normal_mean (env : Env) (voxels : List Nat)
    (edges : List (Nat × EdgeInfo)) (v i : Nat)
    (h : (v, i) ∈ (GenerateVertexData env voxels edges).1) :
    2 ≤ (gatherEdgeInfos edges v).length ∧
    (GenerateVertexData env voxels edges).2.1[i]? =
      some (vertexFor env edges v) ∧
    (vertexFor env edges v).2 =
      Vec4.scale (1 / ((gatherEdgeInfos edges v).length : ℚ))
        (((gatherEdgeInfos edges v).map EdgeInfo.normal).foldl
          Vec4.add Vec4.zero) := by
  obtain ⟨h1, h2, h3⟩ := gvd_inv env voxels edges
  refine ⟨h3 (v, i) h, h2 (v, i) h, ?_⟩
  have h4 : 2 ≤ (gatherEdgeInfos edges v).length := h3 (v, i) h
  have hn : ¬ (gatherEdgeInfos edges v).length = 0 := by omega
  simp only [vertexFor]
  rw [if_pos hn]

/-- Claim C2 (amended): the QEF solver is invoked once per active voxel, in
iteration order, with the number of found edge crossings of that voxel as
its sample count — which is always at most 12 but can be less than 2. -/
theorem C2_qef_call_counts (env : Env) (voxels : List Nat)
    (edges : List (Nat × EdgeInfo)) :
    (GenerateVertexData env voxels edges).2.2 =
      voxels.map (fun v => (gatherEdgeInfos edges v).length) ∧
    ∀ n ∈ (GenerateVertexData env voxels edges).2.2, n ≤ 12 := by
  have h : (GenerateVertexData env voxels edges).2.2 =
      (([], [], []) : VertexState).2.2 ++
        voxels.map (fun v => (gatherEdgeInfos edges v).length) :=
    gvd_calls env edges voxels ([], [], [])
  constructor
  · simpa using h
  · intro n hn
    rw [h] at hn
    simp only [List.nil_append, List.mem_map] at hn
    obtain ⟨v, -, rfl⟩ := hn
    exact le_trans (List.length_filterMap_le _ _) (by simp)

/- ### Triangulator -/

theorem scan_edges_inv (env : Env) (wx wy wz : Int) (g : Nat) :
    ∀ pr ∈ (FindActiveVoxels env wx wy wz g).2,
      EdgeRecorded env wx wy wz g pr := by
  refine foldl_invariant
    (P := fun st : ScanState => ∀ pr ∈ st.2, EdgeRecorded env wx wy wz g pr)
    (Q := fun c : Nat × Nat × Nat × Nat =>
      c.1 < g ∧ c.2.1 < g ∧ c.2.2.1 < g ∧ c.2.2.2 < 3)
    (scanStep env wx wy wz g) ?_ (allSteps g) ([], []) (by simp)
    fun a ha => mem_allSteps ha
  intro s a hP hQ
  simp only [scanStep]
  split
  · dsimp only
    intro pr hpr
    rcases mem_updateAssoc hpr with h | h
    · exact hP pr h
    · subst h
      exact ⟨a.1, a.2.1, a.2.2.1, a.2.2.2, hQ.2.2.2, hQ.1, hQ.2.1, hQ.2.2.1,
        rfl, rfl⟩
  · exact hP

theorem length_filterMap_lt_of_none {α β : Type} {f : α → Option β} :
    ∀ {l : List α} {a : α}, a ∈ l → f a = none →
      (l.filterMap f).length < l.length := by
  intro l
  induction l with
  | nil => intro a h; cases h
  | cons b l ih =>
    intro a ha hf
    rcases List.mem_cons.mp ha with rfl | ha1
    · have hle := List.length_filterMap_le f l
      simp only [List.filterMap_cons, hf, List.length_cons]
      omega
    · rcases hfb : f b with - | v
      · have := ih ha1 hf
        simp only [List.filterMap_cons, hfb, List.length_cons]
        omega
      · have := ih ha1 hf
        simp only [List.filterMap_cons, hfb, List.length_cons]
        omega

theorem trisForEdge_eq_nil {vertexIndices : List (Nat × Nat)} {edge : Nat}
    {info : EdgeInfo} (h : (foundVoxels vertexIndices edge).length ≠ 4) :
    trisForEdge vertexIndices edge info = [] := by
  rcases hl : foundVoxels vertexIndices edge with
    - | ⟨a, - | ⟨b, - | ⟨c, - | ⟨d, - | ⟨e, tl⟩⟩⟩⟩⟩ <;>
    (rw [hl] at h; simp only [trisForEdge, hl]; try simp_all)

theorem trisForEdge_length (vertexIndices : List (Nat × Nat)) (edge : Nat)
    (info : EdgeInfo) :
    (trisForEdge vertexIndices edge info).length = 0 ∨
    (trisForEdge vertexIndices edge info).length = 2 := by
  rcases hl : foundVoxels vertexIndices edge with
    - | ⟨a, - | ⟨b, - | ⟨c, - | ⟨d, - | ⟨e, tl⟩⟩⟩⟩⟩ <;>
    simp only [trisForEdge, hl] <;> first
      | exact Or.inl rfl
      | (split_ifs <;> exact Or.inr rfl)

theorem generateTriangles_even (vertexIndices : List (Nat × Nat))
    (edges : List (Nat × EdgeInfo)) :
    (GenerateTriangles vertexIndices edges).length % 2 = 0 := by
  induction edges with
  | nil => rfl
  | cons pr l ih =>
    show (((pr :: l).flatMap fun pr =>
      trisForEdge vertexIndices pr.1 pr.2).length) % 2 = 0
    rw [List.flatMap_cons, List.length_append]
    rcases trisForEdge_length vertexIndices pr.1 pr.2 with h | h <;>
      · rw [h]
        have : (GenerateTriangles vertexIndices l).length % 2 = 0 := ih
        rw [GenerateTriangles] at this
        omega

theorem mem_foundVoxels_exists {vertexIndices : List (Nat × Nat)}
    {edge x : Nat} (hx : x ∈ foundVoxels vertexIndices edge) :
    ∃ pr ∈ vertexIndices, pr.2 = x := by
  obtain ⟨id, -, hsome⟩ := List.mem_filterMap.mp hx
  exact ⟨(id, x), lookup_some_mem hsome, rfl⟩

theorem trisForEdge_index_mem {vertexIndices : List (Nat × Nat)} {edge : Nat}
    {info : EdgeInfo} {t : MeshTriangle}
    (ht : t ∈ trisForEdge vertexIndices edge info) :
    (∃ pr ∈ vertexIndices, pr.2 = t.i0) ∧
    (∃ pr ∈ vertexIndices, pr.2 = t.i1) ∧
    (∃ pr ∈ vertexIndices, pr.2 = t.i2) := by
  rcases hl : foundVoxels vertexIndices edge with
    - | ⟨a, - | ⟨b, - | ⟨c, - | ⟨d, - | ⟨e, tl⟩⟩⟩⟩⟩ <;>
    simp only [trisForEdge, hl] at ht <;> try cases ht
  have hmem : ∀ x ∈ [a, b, c, d], ∃ pr ∈ vertexIndices, pr.2 = x := by
    intro x hx
    have hxf : x ∈ foundVoxels vertexIndices edge := by
      rw [hl]
      exact hx
    exact mem_foundVoxels_exists hxf
  split_ifs at ht <;>
    simp only [List.mem_cons, List.not_mem_nil, or_false] at ht <;>
    rcases ht with rfl | rfl <;>
    exact ⟨hmem _ (by simp), hmem _ (by simp), hmem _ (by simp)⟩

theorem gvd_index_lt (env : Env) (voxels : List Nat)
    (edges : List (Nat × EdgeInfo)) :
    ∀ pr ∈ (GenerateVertexData env voxels edges).1,
      pr.2 < (GenerateVertexData env voxels edges).2.1.length := by
  intro pr hpr
  have h1 := (gvd_inv env voxels edges).1
  have hmem : pr.2 ∈ (GenerateVertexData env voxels edges).1.map Prod.snd :=
    List.mem_map_of_mem Prod.snd hpr
  rw [h1] at hmem
  exact List.mem_range.mp hmem

/-- Claim C1: a recorded edge emits triangles iff all 4 voxels sharing it
resolve in VertexIndexMap, in which case exactly the two triangles
`(v0,v1,v3), (v0,v3,v2)` (winding flag true) or `(v0,v3,v1), (v0,v2,v3)`
(winding flag false) are emitted over the resolved indices in fixed
per-axis corner order; edges with fewer than 4 resolved voxels contribute
nothing; and the winding flag of every recorded edge is set iff the density
at the edge's lower endpoint is ≥ 0. -/
theorem C1_triangle_emission (vertexIndices : List (Nat × Nat)) (edge : Nat)
    (info : EdgeInfo) (env : Env) (wx wy wz : Int) (g : Nat) :
    (∀ v0 v1 v2 v3 : Nat,
      (edgeVoxelIDs edge).map (fun id => vertexIndices.lookup id) =
        [some v0, some v1, some v2, some v3] →
      trisForEdge vertexIndices edge info =
        if info.winding then [⟨v0, v1, v3⟩, ⟨v0, v3, v2⟩]
        else [⟨v0, v3, v1⟩, ⟨v0, v2, v3⟩]) ∧
    ((∃ id ∈ edgeVoxelIDs edge, vertexIndices.lookup id = none) →
      trisForEdge vertexIndices edge info = []) ∧
    (∀ pr ∈ (FindActiveVoxels env wx wy wz g).2,
      EdgeRecorded env wx wy wz g pr) := by
  refine ⟨?_, ?_, scan_edges_inv env wx wy wz g⟩
  · intro v0 v1 v2 v3 hmap
    simp only [edgeVoxelIDs, List.map_cons, List.map_nil,
      List.cons.injEq, and_true] at hmap
    obtain ⟨h0, h1, h2, h3⟩ := hmap
    simp only [trisForEdge, foundVoxels, edgeVoxelIDs, List.filterMap_cons,
      h0, h1, h2, h3, List.filterMap_nil]
  · rintro ⟨id, hid, hnone⟩
    apply trisForEdge_eq_nil
    have h4 : (edgeVoxelIDs edge).length = 4 := by
      simp [edgeVoxelIDs]
    have hlt := length_filterMap_lt_of_none
      (f := fun id => vertexIndices.lookup id) hid hnone
    rw [h4] at hlt
    rw [foundVoxels]
    omega

/-- Claim C4: for every call to `GenerateMesh` the triangle count is even,
and each of the 3 indices of every emitted triangle is strictly less than
the final number of vertices. -/
theorem C4_mesh_buffer_safety (env : Env) (x y z : Int) (g : Nat) :
    (GenerateMesh env x y z g).triangles.length % 2 = 0 ∧
    ∀ t ∈ (GenerateMesh env x y z g).triangles,
      t.i0 < (GenerateMesh env x y z g).vertices.length ∧
      t.i1 < (GenerateMesh env x y z g).vertices.length ∧
      t.i2 < (GenerateMesh env x y z g).vertices.length := by
  have htris : (GenerateMesh env x y z g).triangles =
      GenerateTriangles
        (GenerateVertexData env (FindActiveVoxels env x y z g).1
          (FindActiveVoxels env x y z g).2).1
        (FindActiveVoxels env x y z g).2 := rfl
  have hverts : (GenerateMesh env x y z g).vertices =
      (GenerateVertexData env (FindActiveVoxels env x y z g).1
        (FindActiveVoxels env x y z g).2).2.1 := rfl
  rw [htris, hverts]
  refine ⟨generateTriangles_even _ _, ?_⟩
  intro t ht
  rw [GenerateTriangles] at ht
  obtain ⟨e, -, hte⟩ := List.mem_flatMap.mp ht
  obtain ⟨⟨p0, hp0, he0⟩, ⟨p1, hp1, he1⟩, ⟨p2, hp2, he2⟩⟩ :=
    trisForEdge_index_mem hte
  exact ⟨he0 ▸ gvd_index_lt env _ _ p0 hp0,
         he1 ▸ gvd_index_lt env _ _ p1 hp1,
         he2 ▸ gvd_index_lt env _ _ p2 hp2⟩

section ConcreteEvaluation

/- Evaluating the model at concrete grids requires reducing `ℚ` arithmetic
in the kernel; the arithmetic operations on `Rat` are elaborator-irreducible
by default, so they are made semireducible locally. -/
set_option allowUnsafeReducibility true
attribute [local semireducible] Rat.add Rat.mul Rat.inv Rat.sub
set_option maxRecDepth 10000

theorem C6_witness :
    (DecodeVoxelUniqueID 0).1 < 1 ∧ (DecodeVoxelUniqueID 0).2.1 < 1 ∧
    (DecodeVoxelUniqueID 0).2.2 < 1 :=
  (C6_active_voxel_ids_in_range planeEnv 0 0 0 1).1 0 (by decide)

/-- Counterexample to claim C2 as stated: on the 1-cell grid with the plane
density field, the single active voxel finds only 1 crossing edge, yet the
QEF solver is still invoked for it — with sample count 1, outside `[2, 12]`. -/
theorem C2_counterexample :
    ∃ n ∈ (GenerateVertexData planeEnv
      (FindActiveVoxels planeEnv 0 0 0 1).1
      (FindActiveVoxels planeEnv 0 0 0 1).2).2.2, ¬ 2 ≤ n := by
  decide

theorem C2_witness : (2 : Nat) ≤ 12 :=
  (C2_qef_call_counts planeEnv [5] sampleEdges).2 2 (by decide)

theorem C3_witness :
    ((GenerateVertexData planeEnv [5] sampleEdges).1.lookup 5).isSome ↔
      2 ≤ (gatherEdgeInfos sampleEdges 5).length :=
  (C3_vertex_iff_two_edges planeEnv [5] sampleEdges (by decide) 5
    (by decide)).1

theorem C9_witness :
    (vertexFor planeEnv sampleEdges 5).2 =
      Vec4.scale (1 / ((gatherEdgeInfos sampleEdges 5).length : ℚ))
        (((gatherEdgeInfos sampleEdges 5).map EdgeInfo.normal).foldl
          Vec4.add Vec4.zero) :=
  (C9_vertex_normal_mean planeEnv [5] sampleEdges 5 0 (by decide)).2.2

theorem C10_witness :
    (GenerateVertexData planeEnv [5] sampleEdges).2.1[0]? =
      some (vertexFor planeEnv sampleEdges 5) :=
  (C10_sequential_indices planeEnv [5] sampleEdges).2.2 (5, 0) (by decide)

theorem C1_witness :
    trisForEdge [(1049601, 0), (1025, 1), (1048577, 2), (1, 3)] 1049601
      sampleInfo = [⟨0, 1, 3⟩, ⟨0, 3, 2⟩] := by
  have h := (C1_triangle_emission
    [(1049601, 0), (1025, 1), (1048577, 2), (1, 3)] 1049601 sampleInfo
    planeEnv 0 0 0 1).1 0 1 2 3 (by decide)
  simpa [sampleInfo] using h

theorem C4_witness :
    (GenerateMesh planeEnv 0 0 0 3).triangles.length % 2 = 0 ∧
    (4 : Nat) < (GenerateMesh planeEnv 0 0 0 3).vertices.length ∧
    (0 : Nat) < (GenerateMesh planeEnv 0 0 0 3).vertices.length ∧
    (3 : Nat) < (GenerateMesh planeEnv 0 0 0 3).vertices.length :=
  ⟨(C4_mesh_buffer_safety planeEnv 0 0 0 3).1,
   (C4_mesh_buffer_safety planeEnv 0 0 0 3).2 ⟨4, 0, 3⟩ (by decide)⟩

end ConcreteEvaluation

end FastDC
